import Mathlib

/-
Verification of fast-ok-server (src/fast-ok-server.go), a fasthttp-based
server that answers every request with 200 / "OK" and keeps atomic traffic
counters (global totals, per-method, per-host) which a stats goroutine
reports periodically.

Modelling conventions:
- Go `uint64` values are `Nat` reduced modulo `2 ^ 64` (`U64`); every
  counter update in the source is an `atomic.AddUint64`, embedded as
  `(x + d) % U64`.
- Go byte-slice lengths (`len(...)`, a non-negative `int`) are `Nat`; the
  conversion `uint64(a + b + ...)` on `int` summands wraps modulo `2 ^ 64`,
  embedded as `(...) % U64`.
- The `sync.Map` is an association list `List (String × HostStats)`; the
  handler's Load / LoadOrStore get-or-create followed by two atomic adds is
  a single state-transformer step (`handlerStep`), and the convergence of
  concurrent `LoadOrStore` calls is modelled separately as a sequence of
  atomic map operations (`mapStep` / `runMapOps`), since each primitive is
  atomic and any interleaving is a serialization of those primitives.
- Go integer division panics on a zero divisor, which (in the stats
  goroutine, with no recover) terminates the process; division is embedded
  as `goDivU64 : Nat → Nat → Option Nat`, `none` meaning the panic.
- `float64` averages are embedded as exact rationals (`ℚ`).
-/

namespace FastOkServer

/-- Modulus of Go `uint64` arithmetic. -/
def U64 : Nat := 2 ^ 64

/-- ASCII fragment of Go `strings.ToLower`, applied to the raw `Host` header
(`strings.ToLower(string(ctx.Host()))`, line 55). `Char.toLower` lowercases
exactly the ASCII range, which is the fragment relevant to host names. -/
def toLowerGo (s : String) : String := ⟨s.data.map Char.toLower⟩

/-- Host bucketing key (lines 55-58): lower-case the raw host; an empty host
is replaced by the sentinel `"(no-host)"`. -/
def hostKeyOf (rawHost : String) : String :=
  let host := toLowerGo rawHost
  if host = "" then "(no-host)" else host

/-- Request size estimate (lines 60-65):
`uint64(headersLen + bodyLen + methodLen + uriLen + estReqLine)` with
`estReqLine = 11`. The `int` additions followed by the `uint64` conversion
amount to reduction modulo `2 ^ 64` for non-negative summands. -/
def sizeEstimate (headersLen bodyLen methodLen uriLen : Nat) : Nat :=
  (headersLen + bodyLen + methodLen + uriLen + 11) % U64

/-- The three method buckets of `methodStats` (lines 32-36). -/
inductive MethodCategory where
  | GET : MethodCategory
  | POST : MethodCategory
  | OTHER : MethodCategory
deriving DecidableEq

/-- Method classification implicit in the `switch string(ctx.Method())`
(lines 83-90): exact, case-sensitive match against `fasthttp.MethodGet`
(`"GET"`) and `fasthttp.MethodPost` (`"POST"`); everything else falls to the
`default` bucket. -/
def methodCategory (m : String) : MethodCategory :=
  if m = "GET" then MethodCategory.GET
  else if m = "POST" then MethodCategory.POST
  else MethodCategory.OTHER

/-- Result of classifying one request (the spec's `Classify`). -/
structure Classification where
  hostKey : String
  methodCat : MethodCategory
  sizeEst : Nat
deriving DecidableEq

/-- The classifier inlined in the handler (lines 54-65): host key, method
category and size estimate of one request, from the raw host, raw method and
the four byte lengths. -/
def Classify (rawHost rawMethod : String)
    (headerByteLen bodyByteLen methodByteLen uriByteLen : Nat) :
    Classification :=
  { hostKey := hostKeyOf rawHost
  , methodCat := methodCategory rawMethod
  , sizeEst := sizeEstimate headerByteLen bodyByteLen methodByteLen uriByteLen }

/-- Per-host counters (`hostStats`, lines 27-30), both `uint64`. -/
structure HostStats where
  requests : Nat
  bytes : Nat
deriving DecidableEq

/-- Per-method counters (`methodStats`, lines 32-36). -/
structure MethodStats where
  get : Nat
  post : Nat
  other : Nat
deriving DecidableEq

/-- The server's shared counter state: `totalRequests`, `totalBytes`,
`methods` and the `sync.Map` keyed by host (lines 21-40). -/
structure ServerState where
  totalRequests : Nat
  totalBytes : Nat
  methods : MethodStats
  hostMap : List (String × HostStats)
deriving DecidableEq

/-- All counters start at zero and the host map empty (Go zero values). -/
def initialState : ServerState :=
  { totalRequests := 0, totalBytes := 0
  , methods := { get := 0, post := 0, other := 0 }
  , hostMap := [] }

/-- Lookup in the association-list model of the `sync.Map`. -/
def lookupHost : List (String × HostStats) → String → Option HostStats
  | [], _ => none
  | p :: ps, k => if p.1 = k then some p.2 else lookupHost ps k

/-- Store under a key in the association-list model of the `sync.Map`:
replace the existing entry, or append a new one. -/
def setHost : List (String × HostStats) → String → HostStats → List (String × HostStats)
  | [], k, v => [(k, v)]
  | p :: ps, k, v => if p.1 = k then (k, v) :: ps else p :: setHost ps k v

/-- The inputs the handler reads from the request context: raw host, raw
method, and the four byte lengths (header bytes, body bytes, method bytes,
URI bytes). -/
structure Request where
  host : String
  method : String
  headersLen : Nat
  bodyLen : Nat
  methodLen : Nat
  uriLen : Nat
deriving DecidableEq

/-- The response the handler writes: status code, content type, body. -/
structure Response where
  statusCode : Nat
  contentType : String
  body : String
deriving DecidableEq

/-- The `switch string(ctx.Method())` (lines 83-90): bump exactly one of the
three method counters, modulo `2 ^ 64`. -/
def bumpMethods (ms : MethodStats) (m : String) : MethodStats :=
  if m = "GET" then { ms with get := (ms.get + 1) % U64 }
  else if m = "POST" then { ms with post := (ms.post + 1) % U64 }
  else { ms with other := (ms.other + 1) % U64 }

/-- One execution of the request handler `h` (lines 54-94): classify the
request, add to the global counters, get-or-create the host entry and add to
it, bump the method counter, and answer `200` / `text/plain; charset=utf-8`
/ `"OK"`. The Load / LoadOrStore pair of lines 70-81, each primitive being
atomic, acts on the map as get-or-create; `handlerStep` is that step as a
state transformer. -/
def handlerStep (st : ServerState) (req : Request) : ServerState × Response :=
  let host := hostKeyOf req.host
  let reqSize := sizeEstimate req.headersLen req.bodyLen req.methodLen req.uriLen
  let totalBytes1 := (st.totalBytes + reqSize) % U64
  let totalRequests1 := (st.totalRequests + 1) % U64
  let hs := (lookupHost st.hostMap host).getD { requests := 0, bytes := 0 }
  let hs1 : HostStats := { requests := (hs.requests + 1) % U64, bytes := (hs.bytes + reqSize) % U64 }
  let hostMap1 := setHost st.hostMap host hs1
  let methods1 := bumpMethods st.methods req.method
  ( { totalRequests := totalRequests1, totalBytes := totalBytes1
    , methods := methods1, hostMap := hostMap1 }
  , { statusCode := 200, contentType := "text/plain; charset=utf-8", body := "OK" } )

/-- Serve a finite sequence of requests starting from the initial state. -/
def runRequests (reqs : List Request) : ServerState :=
  reqs.foldl (fun st r => (handlerStep st r).1) initialState

/-- True (unwrapped) byte total of one request: the four lengths plus the
11-byte request-line overhead. -/
def rawSize (req : Request) : Nat :=
  req.headersLen + req.bodyLen + req.methodLen + req.uriLen + 11

/-- Go `uint64` subtraction `a - b` for operands below `2 ^ 64`: wraps
modulo `2 ^ 64` (used for all interval deltas, lines 118-119 and 145-146). -/
def subU64 (a b : Nat) : Nat := (a + U64 - b) % U64

/-- Go `uint64` integer division: a zero divisor is a run-time panic, which
in the stats goroutine (no recover) terminates the process; embedded as
`none`. -/
def goDivU64 (a b : Nat) : Option Nat :=
  if b = 0 then none else some (a / b)

/-- The divisor of the per-second rates, `uint64(interval.Seconds())`
(lines 163, 171, 177): the interval in nanoseconds over `10 ^ 9`, truncated
toward zero. -/
def intervalSecondsU64 (intervalNs : Nat) : Nat := intervalNs / 1000000000

/-- The interval figures one reporter tick computes for the global totals
(lines 116-123 and 162-171): request and byte deltas, per-second rates, and
the average request size. -/
structure TickReport where
  deltaReq : Nat
  deltaBytes : Nat
  reqRate : Nat
  byteRate : Nat
  avgReqSize : ℚ
deriving DecidableEq

/-- Global-totals part of one reporter tick (lines 116-123, 162-171): deltas
by `uint64` subtraction, average `float64(db) / float64(dr)` guarded by
`dr > 0` (line 120-122), and the two per-second rates by `uint64` division
by `uint64(interval.Seconds())` — unguarded in the source, so a zero divisor
is the panic case `none`. -/
def tickTotals (prevReq prevBytes currReq currBytes secs : Nat) : Option TickReport :=
  let dr := subU64 currReq prevReq
  let db := subU64 currBytes prevBytes
  let avg : ℚ := if 0 < dr then (db : ℚ) / (dr : ℚ) else 0
  match goDivU64 dr secs, goDivU64 db secs with
  | some rr, some br => some { deltaReq := dr, deltaBytes := db, reqRate := rr, byteRate := br, avgReqSize := avg }
  | _, _ => none

/-- One line of the per-host ranking (the `item` struct, lines 129-134):
host, interval request delta, interval byte delta, and the interval average
request size. -/
structure HostItem where
  host : String
  req : Nat
  bytes : Nat
  avg : ℚ
deriving DecidableEq

/-- The item the `hostMap.Range` body (lines 137-155) would build for one
host entry, given the previous snapshot table: interval deltas by `uint64`
subtraction and the rational average. -/
def hostItemOf (prevSnap : String → HostStats) (p : String × HostStats) : HostItem :=
  let dreq := subU64 p.2.requests (prevSnap p.1).requests
  let dbytes := subU64 p.2.bytes (prevSnap p.1).bytes
  { host := p.1, req := dreq, bytes := dbytes, avg := (dbytes : ℚ) / (dreq : ℚ) }

/-- The `items` slice after the `hostMap.Range` (lines 136-155): one item
per enumerated host whose interval request delta is positive; zero-delta
hosts are skipped. `entries` is the map contents in the order `Range`
happens to visit them. -/
def computeItems (entries : List (String × HostStats)) (prevSnap : String → HostStats) :
    List HostItem :=
  entries.filterMap fun p =>
    if 0 < (hostItemOf prevSnap p).req then some (hostItemOf prevSnap p) else none

/-- Ranking relation of the host sort (line 157): `a` before `b` when `a`'s
interval request delta is at least `b`'s. -/
def rankRel (a b : HostItem) : Prop := b.req ≤ a.req

instance rankRelDecidable : DecidableRel rankRel :=
  fun a b => Nat.decLe b.req a.req

/-- The sort of line 157: descending by interval request delta
(`items[i].req > items[j].req`); `sort.Slice` is unstable, ties land in an
arbitrary order, so any sorted permutation is a faithful model. -/
def sortItems (items : List HostItem) : List HostItem :=
  items.insertionSort rankRel

/-- Sort then truncate to the configured top-N (lines 157-160): the
source truncates only when `len(items) > top`, which is exactly
`List.take top` on the sorted list. -/
def selectTop (top : Nat) (items : List HostItem) : List HostItem :=
  (sortItems items).take top

/-- The `prevSnapshots` Go map after the `Range` (line 152): every
enumerated host's snapshot is set to its current counters, whether or not it
produced an output line; other keys keep their previous snapshot. A Go map
read of a missing key yields the zero value, so the table is total. -/
def updateSnaps (entries : List (String × HostStats)) (prevSnap : String → HostStats) :
    String → HostStats :=
  fun h =>
    match entries.find? (fun p => p.1 == h) with
    | some p => p.2
    | none => prevSnap h

/-- An atomic operation on one key of the `sync.Map`: a `Load`, or a
`LoadOrStore` bringing a freshly allocated `&hostStats{}` identified by a
tag. -/
inductive MapOp where
  | load : MapOp
  | store : Nat → MapOp
deriving DecidableEq

/-- Semantics of one atomic map primitive on one key, per the `sync.Map`
contract (lines 70-77): `Load` returns the current entry and leaves the map
unchanged; `LoadOrStore` returns the existing entry if present, otherwise
stores and returns the fresh one. The second component is the instance the
caller observes (`none`: a `Load` miss). -/
def mapStep (st : Option Nat) : MapOp → Option Nat × Option Nat
  | MapOp.load => (st, st)
  | MapOp.store fresh =>
    match st with
    | some i => (some i, some i)
    | none => (some fresh, some fresh)

/-- Run a serialization of atomic map primitives (any interleaving of
concurrent callers is one such serialization), collecting each observed
result. -/
def runMapOps (st : Option Nat) : List MapOp → Option Nat × List (Option Nat)
  | [] => (st, [])
  | op :: ops =>
    let s1 := mapStep st op
    let rest := runMapOps s1.1 ops
    (rest.1, s1.2 :: rest.2)

/-- The two global counter increments of lines 67-68, as one operation on
the pair (totalRequests, totalBytes): `atomic.AddUint64(&totalBytes, reqSize)`
and `atomic.AddUint64(&totalRequests, 1)`. -/
def recordRequest (st : Nat × Nat) (size : Nat) : Nat × Nat :=
  ((st.1 + 1) % U64, (st.2 + size) % U64)

/-- Totals after a finite sequence of `recordRequest` calls from zero. -/
def recordAll (sizes : List Nat) : Nat × Nat :=
  sizes.foldl recordRequest (0, 0)

instance rankRelTotal : IsTotal HostItem rankRel :=
  ⟨fun a b => Nat.le_total b.req a.req⟩

instance rankRelIsTrans : IsTrans HostItem rankRel :=
  ⟨fun _ _ _ h1 h2 => Nat.le_trans h2 h1⟩

/-- Lowercasing preserves emptiness: the mapped character list is empty iff
the original is. -/
theorem toLowerGo_eq_empty_iff (s : String) : toLowerGo s = "" ↔ s = "" := by
  cases s with
  | mk d =>
    simp [toLowerGo, String.ext_iff]

/-- Go `uint64` subtraction agrees with truncated subtraction when the
minuend dominates and no wrap occurred. -/
theorem subU64_of_le (a b : Nat) (hba : b ≤ a) (ha : a < U64) :
    subU64 a b = a - b := by
  have h1 : a + U64 - b = (a - b) + U64 := by omega
  have h2 : a - b < U64 := by omega
  rw [subU64, h1, Nat.add_mod_right, Nat.mod_eq_of_lt h2]

/-- Storing under `k` changes exactly the binding of `k` in the
association-list map. -/
theorem lookupHost_setHost (m : List (String × HostStats)) (k h : String) (v : HostStats) :
    lookupHost (setHost m k v) h = if h = k then some v else lookupHost m h := by
  induction m with
  | nil =>
    by_cases hk : h = k
    · subst hk; simp [setHost, lookupHost]
    · have hkh : ¬ k = h := fun e => hk (Eq.symm e)
      simp [setHost, lookupHost, hk, hkh]
  | cons p ps ih =>
    by_cases hpk : p.1 = k
    · by_cases hk : h = k
      · subst hk; simp [setHost, lookupHost, hpk]
      · have hph : ¬ p.1 = h := by rw [hpk]; exact fun e => hk (Eq.symm e)
        have hkh : ¬ k = h := fun e => hk (Eq.symm e)
        simp [setHost, lookupHost, hpk, hk, hph, hkh]
    · by_cases hk : h = k
      · subst hk
        have hph : ¬ p.1 = h := hpk
        simp [setHost, lookupHost, hpk, hph, ih]
      · by_cases hph : p.1 = h
        · simp [setHost, lookupHost, hpk, hph, hk]
        · simp [setHost, lookupHost, hpk, hph, hk, ih]

/-- In a list with pairwise-distinct keys, two members sharing a key are the
same entry. -/
theorem entry_eq_of_key_eq (entries : List (String × HostStats))
    (hnd : (entries.map Prod.fst).Nodup) (p q : String × HostStats)
    (hp : p ∈ entries) (hq : q ∈ entries) (hk : p.1 = q.1) : p = q := by
  exact List.inj_on_of_nodup_map hnd hp hq hk

/-- In a list with pairwise-distinct keys, `find?` on a member's key returns
exactly that member. -/
theorem findEntry_eq (entries : List (String × HostStats)) (h : String) (hs : HostStats)
    (hnd : (entries.map Prod.fst).Nodup) (hmem : (h, hs) ∈ entries) :
    entries.find? (fun p => p.1 == h) = some (h, hs) := by
  induction entries with
  | nil => cases hmem
  | cons p ps ih =>
    simp only [List.map_cons, List.nodup_cons] at hnd
    rcases List.mem_cons.mp hmem with h1 | h1
    · rw [← h1]
      simp [List.find?]
    · have hkey : h ∈ ps.map Prod.fst := List.mem_map.mpr ⟨(h, hs), h1, rfl⟩
      have hne : ¬ (p.1 == h) = true := by
        simp only [beq_iff_eq]
        intro he
        exact hnd.1 (he ▸ hkey)
      rw [@List.find?_cons_of_neg _ (fun q => q.1 == h) p ps hne]
      exact ih hnd.2 h1

/-- Once an entry is stored, any further sequence of atomic map primitives
leaves it in place and every primitive observes exactly that entry. -/
theorem runMapOps_from_some (ops : List MapOp) (i : Nat) :
    runMapOps (some i) ops = (some i, List.replicate ops.length (some i)) := by
  induction ops with
  | nil => rfl
  | cons op rest ih =>
    cases op <;> simp [runMapOps, mapStep, ih, List.replicate_succ]

/-- Starting from an absent entry, every instance observed during a
serialization of atomic map primitives is the finally stored one. -/
theorem runMapOps_none_mem (ops : List MapOp) (j : Nat)
    (hj : some j ∈ (runMapOps none ops).2) : (runMapOps none ops).1 = some j := by
  induction ops with
  | nil => simp [runMapOps] at hj
  | cons op rest ih =>
    cases op with
    | load =>
      simp only [runMapOps, mapStep, List.mem_cons] at hj ⊢
      rcases hj with hj | hj
      · cases hj
      · exact ih hj
    | store f =>
      simp only [runMapOps, mapStep, runMapOps_from_some, List.mem_cons,
        List.mem_replicate] at hj ⊢
      rcases hj with hj | hj
      · rw [Option.some.injEq] at hj
        rw [hj]
      · rw [Option.some.injEq] at hj
        rw [hj.2]

/-- Folding `recordRequest` adds the call count and the size sum to the two
counters, modulo `2 ^ 64`. -/
theorem recordAll_foldl (sizes : List Nat) (a b : Nat) (ha : a < U64) (hb : b < U64) :
    sizes.foldl recordRequest (a, b) = ((a + sizes.length) % U64, (b + sizes.sum) % U64) := by
  induction sizes generalizing a b with
  | nil => simp [Nat.mod_eq_of_lt ha, Nat.mod_eq_of_lt hb]
  | cons s rest ih =>
    have hU : 0 < U64 := by decide
    simp only [List.foldl_cons, recordRequest]
    rw [ih ((a + 1) % U64) ((b + s) % U64) (Nat.mod_lt _ hU) (Nat.mod_lt _ hU)]
    have e1 : a + 1 + rest.length = a + (rest.length + 1) := by omega
    have e2 : b + s + rest.sum = b + (s + rest.sum) := by omega
    simp [Nat.mod_add_mod, e1, e2]

/-- C1 (code_bug): the reporter's per-second rates divide by
`uint64(interval.Seconds())` with no zero guard (lines 163, 171); for any
sub-second interval (e.g. `-stats 500ms`, 500 000 000 ns) the divisor
truncates to zero, the division panics, and the unrecovered panic in the
stats goroutine terminates the process — while the default 2 s interval
(2 000 000 000 ns) reports normally. -/
theorem subsecond_interval_tick_panics :
    intervalSecondsU64 500000000 = 0
      ∧ tickTotals 0 0 50 3000 (intervalSecondsU64 500000000) = none
      ∧ tickTotals 0 0 50 3000 (intervalSecondsU64 2000000000) ≠ none := by
  decide

/-- C2 (amended): classification lower-cases the host (empty host becomes
the `"(no-host)"` sentinel), and — provided the four byte lengths plus the
11-byte overhead do not wrap 64 bits — the size estimate is exactly
`headerByteLen + bodyByteLen + methodByteLen + uriByteLen + 11`. -/
theorem classify_spec (rawHost rawMethod : String) (hLen bLen mLen uLen : Nat)
    (hno : hLen + bLen + mLen + uLen + 11 < U64) :
    (Classify rawHost rawMethod hLen bLen mLen uLen).hostKey
        = (if rawHost = "" then "(no-host)" else toLowerGo rawHost)
      ∧ (Classify rawHost rawMethod hLen bLen mLen uLen).sizeEst
        = hLen + bLen + mLen + uLen + 11 := by
  constructor
  · show hostKeyOf rawHost = _
    rw [hostKeyOf]
    by_cases h : rawHost = ""
    · rw [if_pos ((toLowerGo_eq_empty_iff rawHost).mpr h), if_pos h]
    · rw [if_neg (fun hc => h ((toLowerGo_eq_empty_iff rawHost).mp hc)), if_neg h]
  · show sizeEstimate hLen bLen mLen uLen = _
    rw [sizeEstimate, Nat.mod_eq_of_lt hno]

/-- Witness for C2 at the spec's two worked examples. -/
theorem classify_spec_witness :
    100 + 50 + 4 + 20 + 11 < U64
      ∧ (Classify "Example.COM" "POST" 100 50 4 20).hostKey = "example.com"
      ∧ (Classify "Example.COM" "POST" 100 50 4 20).sizeEst = 185
      ∧ (Classify "" "GET" 10 0 3 1).hostKey = "(no-host)"
      ∧ (Classify "" "GET" 10 0 3 1).sizeEst = 25 := by
  have h1 := classify_spec "Example.COM" "POST" 100 50 4 20 (by decide)
  have h2 := classify_spec "" "GET" 10 0 3 1 (by decide)
  refine ⟨by decide, ?_, h1.2, ?_, h2.2⟩
  · rw [h1.1]; decide
  · rw [h2.1]; decide

/-- Counterexample for C2 as stated: with byte lengths near the `int`
maximum the `uint64` conversion wraps, so the size estimate is not the
plain sum. -/
theorem classify_sizeEstimate_wrap_cex :
    (Classify "example.com" "GET" (2 ^ 63 - 1) (2 ^ 63 - 1) 0 0).sizeEst
      ≠ (2 ^ 63 - 1) + (2 ^ 63 - 1) + 0 + 0 + 11 := by
  decide

/-- C3: every request, whatever its method, path, headers or body, is
answered with status 200, content type `text/plain; charset=utf-8` and body
exactly `"OK"` (lines 92-94); the handler has no other exit. -/
theorem handler_always_ok (st : ServerState) (req : Request) :
    (handlerStep st req).2
      = { statusCode := 200, contentType := "text/plain; charset=utf-8", body := "OK" } :=
  rfl

/-- C9: the method bucket is GET exactly for the string `"GET"`, POST
exactly for `"POST"` (case-sensitive), and OTHER for every other string. -/
theorem methodCategory_spec (m : String) :
    (methodCategory m = MethodCategory.GET ↔ m = "GET")
      ∧ (methodCategory m = MethodCategory.POST ↔ m = "POST")
      ∧ (methodCategory m = MethodCategory.OTHER ↔ (m ≠ "GET" ∧ m ≠ "POST")) := by
  by_cases h1 : m = "GET"
  · subst h1
    refine ⟨by simp [methodCategory], ?_, by simp [methodCategory]⟩
    rw [methodCategory]
    simp
  · by_cases h2 : m = "POST"
    · subst h2
      refine ⟨?_, by simp [methodCategory, h1], by simp [methodCategory, h1]⟩
      rw [methodCategory, if_neg h1]
      simp
    · simp [methodCategory, h1, h2]

/-- C4: on a reporter tick with monotone, unwrapped totals and a positive
whole-second interval, the deltas are current minus previous, the rates are
the deltas divided (integer division) by the interval seconds, and the
average request size is deltaBytes / deltaRequests when deltaRequests is
positive, else 0. -/
theorem tick_report_spec (prevReq prevBytes currReq currBytes secs : Nat)
    (h1 : prevReq ≤ currReq) (h2 : prevBytes ≤ currBytes)
    (h3 : currReq < U64) (h4 : currBytes < U64) (h5 : 0 < secs) :
    tickTotals prevReq prevBytes currReq currBytes secs
      = some { deltaReq := currReq - prevReq
             , deltaBytes := currBytes - prevBytes
             , reqRate := (currReq - prevReq) / secs
             , byteRate := (currBytes - prevBytes) / secs
             , avgReqSize := if 0 < currReq - prevReq
                 then ((currBytes - prevBytes : Nat) : ℚ) / ((currReq - prevReq : Nat) : ℚ)
                 else 0 } := by
  have e1 := subU64_of_le currReq prevReq h1 h3
  have e2 := subU64_of_le currBytes prevBytes h2 h4
  have hs : ¬ secs = 0 := by omega
  simp [tickTotals, goDivU64, e1, e2, hs]

/-- Witness for C4 at the spec's worked example: previous totals (100, 5000),
current totals (150, 8000), 2-second interval. -/
theorem tick_report_spec_witness :
    (100 : Nat) ≤ 150 ∧ (5000 : Nat) ≤ 8000 ∧ (150 : Nat) < U64 ∧ (8000 : Nat) < U64
      ∧ (0 : Nat) < 2
      ∧ tickTotals 100 5000 150 8000 2
        = some { deltaReq := 50, deltaBytes := 3000, reqRate := 25, byteRate := 1500
               , avgReqSize := 60 } := by
  have h := tick_report_spec 100 5000 150 8000 2 (by decide) (by decide) (by decide)
    (by decide) (by decide)
  refine ⟨by decide, by decide, by decide, by decide, by decide, ?_⟩
  rw [h]
  norm_num

/-- C6: over any serialization of the atomic `Load` / `LoadOrStore`
primitives on one key (any interleaving of concurrent first-time creators is
such a serialization), an entry once stored is never replaced, and every
caller that obtained an instance obtained exactly the finally stored one —
so all concurrent creators of a key converge on a single stored instance. -/
theorem loadOrStore_converges (i j : Nat) (ops : List MapOp)
    (hj : some j ∈ (runMapOps none ops).2) :
    (runMapOps (some i) ops).1 = some i ∧ (runMapOps none ops).1 = some j :=
  ⟨by rw [runMapOps_from_some], runMapOps_none_mem ops j hj⟩

/-- Witness for C6: two creators race (load-miss, store 7, load, store 9);
both observe instance 7, which is the one finally stored. -/
theorem loadOrStore_converges_witness :
    some 7 ∈ (runMapOps none [MapOp.load, MapOp.store 7, MapOp.load, MapOp.store 9]).2
      ∧ (runMapOps (some 5) [MapOp.load, MapOp.store 7, MapOp.load, MapOp.store 9]).1 = some 5
      ∧ (runMapOps none [MapOp.load, MapOp.store 7, MapOp.load, MapOp.store 9]).1 = some 7 := by
  have h := loadOrStore_converges 5 7 [MapOp.load, MapOp.store 7, MapOp.load, MapOp.store 9]
    (by decide)
  exact ⟨by decide, h.1, h.2⟩

/-- C7 (amended): for any finite sequence of `recordRequest` calls whose
count and size sum stay below `2 ^ 64`, the final totals are exactly the
call count and the size sum; and for any permutation of the calls the final
totals are identical — the counter updates are commutative sums. -/
theorem recordRequest_totals (sizes other : List Nat)
    (hlen : sizes.length < U64) (hsum : sizes.sum < U64)
    (hperm : other.Perm sizes) :
    recordAll sizes = (sizes.length, sizes.sum)
      ∧ recordAll other = recordAll sizes := by
  have h1 := recordAll_foldl sizes 0 0 (by decide) (by decide)
  have h2 := recordAll_foldl other 0 0 (by decide) (by decide)
  have e1 : recordAll sizes = (sizes.length % U64, sizes.sum % U64) := by
    simpa [recordAll] using h1
  have e2 : recordAll other = (other.length % U64, other.sum % U64) := by
    simpa [recordAll] using h2
  refine ⟨?_, ?_⟩
  · rw [e1, Nat.mod_eq_of_lt hlen, Nat.mod_eq_of_lt hsum]
  · rw [e1, e2, hperm.length_eq, hperm.sum_eq]

/-- Witness for C7: three calls and a permutation of them yield totals
(3, 395) either way. -/
theorem recordRequest_totals_witness :
    ([185, 25, 185] : List Nat).length < U64 ∧ ([185, 25, 185] : List Nat).sum < U64
      ∧ ([25, 185, 185] : List Nat).Perm [185, 25, 185]
      ∧ recordAll [185, 25, 185] = (3, 395)
      ∧ recordAll [25, 185, 185] = recordAll [185, 25, 185] := by
  have h := recordRequest_totals [185, 25, 185] [25, 185, 185] (by decide) (by decide)
    (by decide)
  exact ⟨by decide, by decide, by decide, h.1, h.2⟩

/-- Counterexample for C7 as stated: a size estimate near the 64-bit
maximum (producible by the handler, whose `uint64` conversion wraps) makes
`totalBytes` wrap, so the final total is not the plain sum of the sizes. -/
theorem recordRequest_sum_wrap_cex :
    (recordAll [2 ^ 64 - 5, 11]).2 ≠ (2 ^ 64 - 5) + 11 := by
  decide

/-- The method-counter bump leaves every bucket non-decreasing as long as
the bumped bucket does not wrap. -/
theorem bumpMethods_mono (ms : MethodStats) (m : String)
    (hg : ms.get + 1 < U64) (hp : ms.post + 1 < U64) (ho : ms.other + 1 < U64) :
    ms.get ≤ (bumpMethods ms m).get ∧ ms.post ≤ (bumpMethods ms m).post
      ∧ ms.other ≤ (bumpMethods ms m).other := by
  by_cases h1 : m = "GET"
  · rw [bumpMethods, if_pos h1]
    refine ⟨?_, Nat.le_refl _, Nat.le_refl _⟩
    show ms.get ≤ (ms.get + 1) % U64
    rw [Nat.mod_eq_of_lt hg]; omega
  · by_cases h2 : m = "POST"
    · rw [bumpMethods, if_neg h1, if_pos h2]
      refine ⟨Nat.le_refl _, ?_, Nat.le_refl _⟩
      show ms.post ≤ (ms.post + 1) % U64
      rw [Nat.mod_eq_of_lt hp]; omega
    · rw [bumpMethods, if_neg h1, if_neg h2]
      refine ⟨Nat.le_refl _, Nat.le_refl _, ?_⟩
      show ms.other ≤ (ms.other + 1) % U64
      rw [Nat.mod_eq_of_lt ho]; omega

/-- C8 (amended): one handler execution leaves every counter in the system
non-decreasing — the global totals, the three method counters, and every
per-host pair — provided none of the touched counters wraps 64 bits (old
value plus increment below `2 ^ 64`); a wrapping increment decreases the
counter instead. -/
theorem handler_counters_monotone (st : ServerState) (req : Request)
    (hreq : st.totalRequests + 1 < U64)
    (hbytes : st.totalBytes
        + sizeEstimate req.headersLen req.bodyLen req.methodLen req.uriLen < U64)
    (hget : st.methods.get + 1 < U64) (hpost : st.methods.post + 1 < U64)
    (hother : st.methods.other + 1 < U64)
    (hhost : ∀ hs, lookupHost st.hostMap (hostKeyOf req.host) = some hs →
        hs.requests + 1 < U64
          ∧ hs.bytes + sizeEstimate req.headersLen req.bodyLen req.methodLen req.uriLen < U64) :
    st.totalRequests ≤ ((handlerStep st req).1).totalRequests
      ∧ st.totalBytes ≤ ((handlerStep st req).1).totalBytes
      ∧ st.methods.get ≤ ((handlerStep st req).1).methods.get
      ∧ st.methods.post ≤ ((handlerStep st req).1).methods.post
      ∧ st.methods.other ≤ ((handlerStep st req).1).methods.other
      ∧ ∀ h hs, lookupHost st.hostMap h = some hs →
          ∃ hs1, lookupHost ((handlerStep st req).1).hostMap h = some hs1
            ∧ hs.requests ≤ hs1.requests ∧ hs.bytes ≤ hs1.bytes := by
  have hb := bumpMethods_mono st.methods req.method hget hpost hother
  simp only [handlerStep]
  refine ⟨?_, ?_, hb.1, hb.2.1, hb.2.2, ?_⟩
  · rw [Nat.mod_eq_of_lt hreq]; omega
  · rw [Nat.mod_eq_of_lt hbytes]; omega
  · intro h hs hl
    rw [lookupHost_setHost]
    by_cases hh : h = hostKeyOf req.host
    · rw [if_pos hh]
      rw [hh] at hl
      rw [hl]
      have hhs := hhost hs hl
      refine ⟨_, rfl, ?_, ?_⟩
      · simp only [Option.getD_some]
        rw [Nat.mod_eq_of_lt hhs.1]; omega
      · simp only [Option.getD_some]
        rw [Nat.mod_eq_of_lt hhs.2]; omega
    · rw [if_neg hh]
      exact ⟨hs, hl, Nat.le_refl _, Nat.le_refl _⟩

/-- Witness for C8: one GET to host `"a"` from the initial state leaves
every counter non-decreasing (the per-host premise is vacuous on the empty
map). -/
theorem handler_counters_monotone_witness :
    initialState.totalRequests + 1 < U64
      ∧ initialState.totalBytes
          ≤ ((handlerStep initialState
              { host := "a", method := "GET", headersLen := 1,
                bodyLen := 2, methodLen := 3, uriLen := 4 }).1).totalBytes
      ∧ initialState.methods.get
          ≤ ((handlerStep initialState
              { host := "a", method := "GET", headersLen := 1,
                bodyLen := 2, methodLen := 3, uriLen := 4 }).1).methods.get := by
  have h := handler_counters_monotone initialState
    { host := "a", method := "GET", headersLen := 1, bodyLen := 2, methodLen := 3, uriLen := 4 }
    (by decide) (by decide) (by decide) (by decide) (by decide)
    (fun hs hl => nomatch hl)
  exact ⟨by decide, h.2.1, h.2.2.1⟩

/-- Counterexample for C8 as stated: a first request whose wrapped size
estimate is `2 ^ 64 - 5` followed by a minimal request makes `totalBytes`
wrap from `2 ^ 64 - 5` down to `6` — the counter decreases across the
second operation. -/
theorem totalBytes_wrap_decreases_cex :
    ¬ (((handlerStep initialState
          { host := "a", method := "GET", headersLen := 2 ^ 63 - 1,
            bodyLen := 2 ^ 63 - 15, methodLen := 0, uriLen := 0 }).1).totalBytes
        ≤ ((handlerStep
            (handlerStep initialState
              { host := "a", method := "GET", headersLen := 2 ^ 63 - 1,
                bodyLen := 2 ^ 63 - 15, methodLen := 0, uriLen := 0 }).1
            { host := "a", method := "GET", headersLen := 0, bodyLen := 0, methodLen := 0,
              uriLen := 0 }).1).totalBytes) := by
  decide

/-- As long as the accumulated true byte total and request count stay below
`2 ^ 64`, serving a request sequence adds exactly the raw sizes to
`totalBytes` and the count to `totalRequests` (no wrap occurs). -/
theorem runRequests_totals (reqs : List Request) (st : ServerState)
    (hb : st.totalBytes + (reqs.map rawSize).sum < U64)
    (hr : st.totalRequests + reqs.length < U64) :
    (reqs.foldl (fun s r => (handlerStep s r).1) st).totalBytes
        = st.totalBytes + (reqs.map rawSize).sum
      ∧ (reqs.foldl (fun s r => (handlerStep s r).1) st).totalRequests
        = st.totalRequests + reqs.length := by
  induction reqs generalizing st with
  | nil => simp
  | cons r rest ih =>
    simp only [List.map_cons, List.sum_cons, List.length_cons] at hb hr
    have hsize : rawSize r < U64 := by omega
    have esz : sizeEstimate r.headersLen r.bodyLen r.methodLen r.uriLen = rawSize r := by
      rw [sizeEstimate, Nat.mod_eq_of_lt
        (show r.headersLen + r.bodyLen + r.methodLen + r.uriLen + 11 < U64 from hsize)]
      apply Eq.refl
    have e1 : ((handlerStep st r).1).totalBytes = st.totalBytes + rawSize r := by
      show (st.totalBytes + sizeEstimate r.headersLen r.bodyLen r.methodLen r.uriLen) % U64 = _
      rw [esz, Nat.mod_eq_of_lt (by omega)]
    have e2 : ((handlerStep st r).1).totalRequests = st.totalRequests + 1 := by
      show (st.totalRequests + 1) % U64 = _
      rw [Nat.mod_eq_of_lt (by omega)]
    have hb1 : ((handlerStep st r).1).totalBytes + (rest.map rawSize).sum < U64 := by
      rw [e1]; omega
    have hr1 : ((handlerStep st r).1).totalRequests + rest.length < U64 := by
      rw [e2]; omega
    have hrec := ih ((handlerStep st r).1) hb1 hr1
    simp only [List.foldl_cons, List.map_cons, List.sum_cons, List.length_cons]
    refine ⟨?_, ?_⟩
    · rw [hrec.1, e1]; omega
    · rw [hrec.2, e2]; omega

/-- Every request contributes at least the 11-byte overhead. -/
theorem rawSize_ge_eleven (l : List Request) : 11 * l.length ≤ (l.map rawSize).sum := by
  induction l with
  | nil => simp
  | cons r rest ih =>
    simp only [List.map_cons, List.sum_cons, List.length_cons, rawSize.eq_def]
    omega

/-- C10 (amended): after serving any request sequence whose true byte total
stays below `2 ^ 64` (so no 64-bit wrap occurs), `totalBytes` is at least
11 times `totalRequests` — each request contributes its lengths plus the
fixed 11-byte request-line overhead. -/
theorem bytes_ge_eleven_requests (reqs : List Request)
    (hsum : (reqs.map rawSize).sum < U64) :
    11 * (runRequests reqs).totalRequests ≤ (runRequests reqs).totalBytes := by
  have h11 := rawSize_ge_eleven reqs
  have hb : initialState.totalBytes + (reqs.map rawSize).sum < U64 := by
    show 0 + _ < U64; omega
  have hr : initialState.totalRequests + reqs.length < U64 := by
    show 0 + _ < U64; omega
  have h := runRequests_totals reqs initialState hb hr
  rw [runRequests, h.1, h.2]
  show 11 * (0 + reqs.length) ≤ 0 + (reqs.map rawSize).sum
  omega

/-- Witness for C10: two small requests, totals (2 requests, 48 bytes),
and indeed 22 ≤ 48. -/
theorem bytes_ge_eleven_requests_witness :
    (([{ host := "a", method := "GET", headersLen := 1, bodyLen := 2, methodLen := 3,
          uriLen := 4 },
        { host := "b", method := "POST", headersLen := 10, bodyLen := 0, methodLen := 4,
          uriLen := 2 }] : List Request).map rawSize).sum < U64
      ∧ 11 * (runRequests
            [{ host := "a", method := "GET", headersLen := 1, bodyLen := 2, methodLen := 3,
                uriLen := 4 },
              { host := "b", method := "POST", headersLen := 10, bodyLen := 0, methodLen := 4,
                uriLen := 2 }]).totalRequests
          ≤ (runRequests
            [{ host := "a", method := "GET", headersLen := 1, bodyLen := 2, methodLen := 3,
                uriLen := 4 },
              { host := "b", method := "POST", headersLen := 10, bodyLen := 0, methodLen := 4,
                uriLen := 2 }]).totalBytes :=
  ⟨by decide, bytes_ge_eleven_requests _ (by decide)⟩

/-- Counterexample for C10 as stated: a single request whose `int` length
sum wraps the `uint64` conversion is recorded with size estimate 2, so
after it `totalBytes = 2 < 11 = 11 * totalRequests`. -/
theorem bytes_invariant_wrap_cex :
    ¬ (11 * (runRequests
          [{ host := "a", method := "GET", headersLen := 2 ^ 63 - 1, bodyLen := 2 ^ 63 - 8,
              methodLen := 0, uriLen := 0 }]).totalRequests
        ≤ (runRequests
          [{ host := "a", method := "GET", headersLen := 2 ^ 63 - 1, bodyLen := 2 ^ 63 - 8,
              methodLen := 0, uriLen := 0 }]).totalBytes) := by
  decide

/-- C5: on a reporter tick over the enumerated host entries (distinct keys,
as in the `sync.Map`), (i) a host's item is a candidate exactly when its
interval request delta is positive, (ii) every emitted line is a candidate,
(iii) the emitted lines are ranked descending by interval request delta,
(iv) exactly `min top N` lines are emitted where `N` counts the candidates,
(v) every emitted line's delta dominates every omitted candidate's, and
(vi) every enumerated host — with or without an output line — has its
stored snapshot updated to its current values. -/
theorem report_hosts_spec (top : Nat) (entries : List (String × HostStats))
    (prevSnap : String → HostStats) (hnd : (entries.map Prod.fst).Nodup) :
    (∀ p ∈ entries,
        (hostItemOf prevSnap p ∈ computeItems entries prevSnap
          ↔ 0 < (hostItemOf prevSnap p).req))
      ∧ (∀ it ∈ selectTop top (computeItems entries prevSnap),
          it ∈ computeItems entries prevSnap)
      ∧ List.Sorted rankRel (selectTop top (computeItems entries prevSnap))
      ∧ (selectTop top (computeItems entries prevSnap)).length
          = min top (computeItems entries prevSnap).length
      ∧ (∀ a ∈ selectTop top (computeItems entries prevSnap),
          ∀ b ∈ computeItems entries prevSnap,
            b ∉ selectTop top (computeItems entries prevSnap) → b.req ≤ a.req)
      ∧ (∀ p ∈ entries, updateSnaps entries prevSnap p.1 = p.2) := by
  have hperm := List.perm_insertionSort rankRel (computeItems entries prevSnap)
  have hsorted := List.sorted_insertionSort rankRel (computeItems entries prevSnap)
  refine ⟨?_, ?_, ?_, ?_, ?_, ?_⟩
  · intro p hp
    constructor
    · intro hmem
      obtain ⟨q, hq, hgq⟩ := List.mem_filterMap.mp hmem
      by_cases h0 : 0 < (hostItemOf prevSnap q).req
      · rw [if_pos h0] at hgq
        have heq : hostItemOf prevSnap q = hostItemOf prevSnap p := Option.some.inj hgq
        have hkeys : q.1 = p.1 := congrArg HostItem.host heq
        rw [entry_eq_of_key_eq entries hnd q p hq hp hkeys] at h0
        exact h0
      · rw [if_neg h0] at hgq
        cases hgq
    · intro h0
      exact List.mem_filterMap.mpr ⟨p, hp, by rw [if_pos h0]⟩
  · intro it hit
    exact hperm.mem_iff.mp (List.take_subset _ _ hit)
  · exact List.Pairwise.sublist (List.take_sublist _ _) hsorted
  · rw [selectTop, sortItems, List.length_take, hperm.length_eq]
  · intro a ha b hb hbn
    have hbs : b ∈ sortItems (computeItems entries prevSnap) := hperm.mem_iff.mpr hb
    have hsplit : b ∈ (sortItems (computeItems entries prevSnap)).take top
        ∨ b ∈ (sortItems (computeItems entries prevSnap)).drop top := by
      rw [← List.mem_append, List.take_append_drop]
      exact hbs
    rcases hsplit with h | h
    · exact absurd h hbn
    · have hpw : List.Pairwise rankRel
          ((sortItems (computeItems entries prevSnap)).take top
            ++ (sortItems (computeItems entries prevSnap)).drop top) := by
        rw [List.take_append_drop]
        exact hsorted
      exact (List.pairwise_append.mp hpw).2.2 a ha b h
  · intro p hp
    have hfind := findEntry_eq entries p.1 p.2 hnd (by rw [Prod.mk.eta]; exact hp)
    simp only [updateSnaps, hfind]

/-- Witness for C5: seven hosts, all with positive interval deltas, and
`top = 5`: exactly `min 5 7 = 5` lines are emitted. -/
theorem report_hosts_spec_witness :
    (([("h1", { requests := 3, bytes := 30 }), ("h2", { requests := 9, bytes := 90 }),
        ("h3", { requests := 1, bytes := 10 }), ("h4", { requests := 7, bytes := 70 }),
        ("h5", { requests := 5, bytes := 50 }), ("h6", { requests := 2, bytes := 20 }),
        ("h7", { requests := 8, bytes := 80 })] : List (String × HostStats)).map
          Prod.fst).Nodup
      ∧ (selectTop 5 (computeItems
          [("h1", { requests := 3, bytes := 30 }), ("h2", { requests := 9, bytes := 90 }),
            ("h3", { requests := 1, bytes := 10 }), ("h4", { requests := 7, bytes := 70 }),
            ("h5", { requests := 5, bytes := 50 }), ("h6", { requests := 2, bytes := 20 }),
            ("h7", { requests := 8, bytes := 80 })]
          (fun _ => { requests := 0, bytes := 0 }))).length
        = min 5 (computeItems
          [("h1", { requests := 3, bytes := 30 }), ("h2", { requests := 9, bytes := 90 }),
            ("h3", { requests := 1, bytes := 10 }), ("h4", { requests := 7, bytes := 70 }),
            ("h5", { requests := 5, bytes := 50 }), ("h6", { requests := 2, bytes := 20 }),
            ("h7", { requests := 8, bytes := 80 })]
          (fun _ => { requests := 0, bytes := 0 })).length
      ∧ (computeItems
          [("h1", { requests := 3, bytes := 30 }), ("h2", { requests := 9, bytes := 90 }),
            ("h3", { requests := 1, bytes := 10 }), ("h4", { requests := 7, bytes := 70 }),
            ("h5", { requests := 5, bytes := 50 }), ("h6", { requests := 2, bytes := 20 }),
            ("h7", { requests := 8, bytes := 80 })]
          (fun _ => { requests := 0, bytes := 0 })).length = 7 := by
  have h := report_hosts_spec 5
    [("h1", { requests := 3, bytes := 30 }), ("h2", { requests := 9, bytes := 90 }),
      ("h3", { requests := 1, bytes := 10 }), ("h4", { requests := 7, bytes := 70 }),
      ("h5", { requests := 5, bytes := 50 }), ("h6", { requests := 2, bytes := 20 }),
      ("h7", { requests := 8, bytes := 80 })]
    (fun _ => { requests := 0, bytes := 0 }) (by decide)
  exact ⟨by decide, h.2.2.2.1, by decide⟩

end FastOkServer
